import Mathlib

/-!
Verification of the reconciliation and alerting engine of the Zero-DB IPO
Agent (`zero_db_ipo_agent.py`).

The embedding models, faithfully to the source:
- the stored IPO record (`IpoRec`) and the file-backed state (`StateMap`,
  an association list mirroring the JSON-backed `ipos_state` dict);
- the GMP aggregator `gather_gmp_for` (median, population spread,
  confidence), with the per-cycle fetch results passed in as a function
  from IPO key to the list of numeric readings gathered for that key;
- the core loop body of `detect_and_notify` (`processRecord`):
  new-IPO / status-change reconciliation followed by the two-rule GMP
  alert decision, including the Python truthiness tests of the source
  (`if not prev`, `not pm`, `if pm and ...`, `if (low or high)`);
- the whole-batch driver `detect_and_notify`, where a record lacking the
  `"key"` field raises `KeyError` (modelled with `Except`: the error
  carries the state mutated so far, the collected notifications are lost);
- the notification batcher of `run_cycle` (`batchMessages`), which packs
  formatted event texts into messages of at most `MAX_LEN` characters.

Numeric values (Python floats) are modelled as rationals; the constant
`1e-9` of the large-move rule is modelled as the exact rational 1/10^9.
The confidence score involves a square root (population standard
deviation), hence lives in `ℝ`; it is carried through the pipeline as an
event payload but never branched on, exactly as in the source.
Notifications, which the source builds as formatted strings, are modelled
as an `Event` inductive carrying the data interpolated into each message.
-/

namespace IpoAgent

/-- Stored IPO record: the claim-relevant fields of the dicts kept in
`ipos_state` (the JSON document `ipos.json`). The fetcher's extra fields
(`lot_size`, `prospectus_path`, `raw`) play no role in any claim and are
omitted. -/
structure IpoRec where
  company_name : Option String
  symbol : Option String
  exchange : Option String
  price_band_low : Option ℚ
  price_band_high : Option ℚ
  issue_open_date : Option String
  issue_close_date : Option String
  status : Option String
  seen_at : Option String
  updated_at : Option String
  last_notified_gmp : Option ℚ
deriving DecidableEq

/-- Record with every field absent: the `{}` produced by
`ipos_state.setdefault(key, {})`. -/
def emptyRec : IpoRec :=
  { company_name := none, symbol := none, exchange := none,
    price_band_low := none, price_band_high := none,
    issue_open_date := none, issue_close_date := none,
    status := none, seen_at := none, updated_at := none,
    last_notified_gmp := none }

/-- The persisted state `ipos_state`: a mapping from IPO key to record,
modelled as an association list. -/
abbrev StateMap := List (String × IpoRec)

/-- Dict assignment `ipos_state[key] = v`: overwrite in place, or append
when absent. -/
def setKey (k : String) (v : IpoRec) : StateMap → StateMap
  | [] => [(k, v)]
  | (k', v') :: rest => if k' = k then (k, v) :: rest else (k', v') :: setKey k v rest

/-- The claim-relevant fields of a normalized incoming IPO dict. -/
structure IncomingFields where
  company_name : Option String
  symbol : Option String
  exchange : Option String
  price_band_low : Option ℚ
  price_band_high : Option ℚ
  issue_open_date : Option String
  issue_close_date : Option String
  status : Option String
deriving DecidableEq

/-- Normalized incoming record whose `"key"` entry is present. -/
structure Incoming extends IncomingFields where
  key : String
deriving DecidableEq

/-- Incoming record as it arrives at the loop of `detect_and_notify`:
`ipo["key"]` raises `KeyError` when the `"key"` entry is missing, so the
key is optional here. -/
structure RawRecord extends IncomingFields where
  key : Option String
deriving DecidableEq

/-- Reattach a known key to a raw record. -/
def RawRecord.withKey (r : RawRecord) (k : String) : Incoming :=
  { toIncomingFields := r.toIncomingFields, key := k }

/-- View a well-keyed record as a raw one. -/
def Incoming.toRaw (r : Incoming) : RawRecord :=
  { toIncomingFields := r.toIncomingFields, key := some r.key }

/-- Python `str()` of an optional status: `str(None) = "None"`, mirroring
`str(prev.get("status")) != str(ipo.get("status"))`. -/
def statusStr : Option String → String
  | none => "None"
  | some s => s

/-- Stored record created for a first sighting: `ipo.copy()` plus
`seen_at = ts` (lines 429-430 of the source). -/
def storeNew (r : Incoming) (ts : String) : IpoRec :=
  { company_name := r.company_name, symbol := r.symbol, exchange := r.exchange,
    price_band_low := r.price_band_low, price_band_high := r.price_band_high,
    issue_open_date := r.issue_open_date, issue_close_date := r.issue_close_date,
    status := r.status, seen_at := some ts, updated_at := none,
    last_notified_gmp := none }

/-- Merge on status change: `ipos_state[key].update(ipo)` followed by
`ipos_state[key]["updated_at"] = ts`. The normalized incoming dict
carries every normalized field (possibly `None`), so incoming values win
on every such field; `seen_at` and `last_notified_gmp` are absent from
the incoming dict and survive. -/
def mergeInto (p : IpoRec) (r : Incoming) (ts : String) : IpoRec :=
  { company_name := r.company_name, symbol := r.symbol, exchange := r.exchange,
    price_band_low := r.price_band_low, price_band_high := r.price_band_high,
    issue_open_date := r.issue_open_date, issue_close_date := r.issue_close_date,
    status := r.status, seen_at := p.seen_at, updated_at := some ts,
    last_notified_gmp := p.last_notified_gmp }

/-- Median as computed by `statistics.median`: sort, take the middle
element for odd length, the mean of the two middle elements for even
length. Only ever applied to non-empty lists (`gather_gmp_for` guards). -/
def medianQ (l : List ℚ) : ℚ :=
  let s := List.insertionSort (· ≤ ·) l
  let n := s.length
  if n % 2 = 1 then s.getD (n / 2) 0
  else (s.getD (n / 2 - 1) 0 + s.getD (n / 2) 0) / 2

/-- Arithmetic mean of a list of readings. -/
def meanQ (l : List ℚ) : ℚ := l.sum / l.length

/-- Population variance, the square of `statistics.pstdev`. -/
def pvarianceQ (l : List ℚ) : ℚ :=
  (l.map (fun x => (x - meanQ l) ^ 2)).sum / l.length

/-- The spread of `gather_gmp_for`:
`float(statistics.pstdev(readings)) if len(readings) > 1 else 0.0`. -/
noncomputable def spreadOf (l : List ℚ) : ℝ :=
  if 1 < l.length then Real.sqrt (pvarianceQ l) else 0

/-- The confidence of `gather_gmp_for`:
`max(0.0, 1.0 - (stdev / (abs(median) + 1))) if median != 0 else 0.0`. -/
noncomputable def aggConfidence (l : List ℚ) : ℝ :=
  if medianQ l ≠ 0 then max 0 (1 - spreadOf l / (|(medianQ l : ℝ)| + 1)) else 0

/-- The consensus aggregate returned by `gather_gmp_for`:
`{"median": ..., "sources": ..., "confidence": ...}`. Provenance entries
are reduced to the contributing numeric values. -/
structure GmpAgg where
  median : ℚ
  sources : List ℚ
  confidence : ℝ

/-- `gather_gmp_for`, applied to the list of readings gathered for one
IPO key this cycle (the network fetches of the source are the providers
of this list): `if not readings: return {}` models as `none`, otherwise
the aggregate is built from median, sources and confidence. -/
noncomputable def gather_gmp_for (readings : List ℚ) : Option GmpAgg :=
  if readings = [] then none
  else some ⟨medianQ readings, readings, aggConfidence readings⟩

/-- The `1e-9` constant of the large-move rule. -/
def epsGmp : ℚ := 1 / 1000000000

/-- Python `abs` on a rational, written so that it evaluates by cases on
the sign (definitionally equal to `|q|`, see `absQ_eq_abs`). -/
def absQ (q : ℚ) : ℚ := if q < 0 then -q else q

/-- Python truthiness of the stored `last_notified_gmp` value `pm`:
falsy when absent or equal to `0`. -/
def pmTruthy : Option ℚ → Bool
  | none => false
  | some q => decide (q ≠ 0)

/-- Crossing-up rule, line 456 of the source:
`median >= GMP_NOTIFY_THRESHOLD and (not pm or float(pm) < GMP_NOTIFY_THRESHOLD)`. -/
def crossingFires (th : ℚ) (pm : Option ℚ) (m : ℚ) : Bool :=
  decide (th ≤ m) && (!pmTruthy pm || decide (pm.getD 0 < th))

/-- Large-move rule, line 458 of the source:
`pm and abs(float(pm) - median) / (abs(float(pm)) + 1e-9) > 0.5`. -/
def largeMoveFires (pm : Option ℚ) (m : ℚ) : Bool :=
  pmTruthy pm && decide (1 / 2 < absQ (pm.getD 0 - m) / (absQ (pm.getD 0) + epsGmp))

/-- Stored `last_notified_gmp` for a key, absent when the key or the
field is absent: `prev.get("last_notified_gmp") if prev else None`. -/
def lastNotifiedAt (st : StateMap) (k : String) : Option ℚ :=
  (st.lookup k).bind fun p => p.last_notified_gmp

/-- The `should_notify` flag of `detect_and_notify`: the OR of the
crossing-up rule and the large-move rule. -/
def shouldNotify (th : ℚ) (pm : Option ℚ) (m : ℚ) : Bool :=
  crossingFires th pm m || largeMoveFires pm m

/-- Price-band midpoint of the alert message, lines 464-470 of the
source: absent bounds read as `0` (`float(... or 0)`), then
`(low + high) / 2 if (low or high) else 0`. The `"N/A"` fallback of the
`except` branch is reachable only when a stored bound is non-numeric
text, which cannot occur for numeric-or-absent bounds, so this function
always returns a value (`some`). -/
def midpointOf (low high : Option ℚ) : Option ℚ :=
  some (if low.getD 0 ≠ 0 ∨ high.getD 0 ≠ 0
        then (low.getD 0 + high.getD 0) / 2 else 0)

/-- One decided notification, abstracting the formatted message string by
the data interpolated into it. -/
inductive Event where
  | newIPO (key : String) (company symbol : Option String)
      (openDate closeDate : Option String) (low high : Option ℚ)
  | statusChanged (key : String) (company symbol : Option String)
      (oldStatus newStatus : Option String)
  | gmpAlert (key : String) (company : Option String) (median : ℚ)
      (conf : ℝ) (midpoint : Option ℚ)

/-- Discriminator for new-IPO events. -/
def Event.isNewIPO : Event → Bool
  | .newIPO .. => true
  | _ => false

/-- Discriminator for status-change events. -/
def Event.isStatusChanged : Event → Bool
  | .statusChanged .. => true
  | _ => false

/-- Discriminator for GMP alerts. -/
def Event.isGmpAlert : Event → Bool
  | .gmpAlert .. => true
  | _ => false

/-- Midpoint payload of a GMP alert, `none` for the other event kinds. -/
def Event.midpointData : Event → Option (Option ℚ)
  | .gmpAlert _ _ _ _ mid => some mid
  | _ => none

/-- Reconciliation phase of the loop body of `detect_and_notify`
(lines 427-446): classify the incoming record as new, status-changed or
unchanged, and update the stored state accordingly. Returns the updated
state and the emitted reconciliation events. -/
def reconcile (ts : String) (st : StateMap) (r : Incoming) : StateMap × List Event :=
  match st.lookup r.key with
  | none =>
      (setKey r.key (storeNew r ts) st,
       [Event.newIPO r.key r.company_name r.symbol
          r.issue_open_date r.issue_close_date r.price_band_low r.price_band_high])
  | some p =>
      if statusStr p.status ≠ statusStr r.status then
        (setKey r.key (mergeInto p r ts) st,
         [Event.statusChanged r.key r.company_name r.symbol p.status r.status])
      else (st, [])

/-- Result of processing one incoming record: updated state, emitted
events, and the trace of states flushed to disk (`save_json` calls). -/
structure StepResult where
  state : StateMap
  events : List Event
  flushes : List StateMap

/-- Loop body of `detect_and_notify` (lines 425-475) for one incoming
record: reconcile, then run the GMP aggregator for the key and apply the
two-rule alert decision. `th` is `GMP_NOTIFY_THRESHOLD`, `gmp` gives the
readings gathered for each key this cycle, `ts` the cycle timestamp.
`pm` is read from the state as looked up before reconciliation, exactly
as `prev` in the source. -/
noncomputable def processRecord (th : ℚ) (gmp : String → List ℚ) (ts : String)
    (st : StateMap) (r : Incoming) : StepResult :=
  let rc := reconcile ts st r
  let st1 := rc.1
  let ev1 := rc.2
  let fl1 : List StateMap := if ev1.isEmpty then [] else [st1]
  match gather_gmp_for (gmp r.key) with
  | none => ⟨st1, ev1, fl1⟩
  | some agg =>
      let pm := lastNotifiedAt st r.key
      if shouldNotify th pm agg.median then
        let stored := (st1.lookup r.key).getD emptyRec
        let upd : IpoRec := { stored with last_notified_gmp := some agg.median }
        let st2 := setKey r.key upd st1
        ⟨st2,
         ev1 ++ [Event.gmpAlert r.key upd.company_name agg.median agg.confidence
                   (midpointOf upd.price_band_low upd.price_band_high)],
         fl1 ++ [st2]⟩
      else ⟨st1, ev1, fl1⟩

/-- `detect_and_notify` over a whole fetched batch. A record lacking the
`"key"` entry raises `KeyError` at `ipo["key"]`; the exception propagates
out of the function, so the mutations flushed so far survive (the state
in the `error` case) while the locally collected notifications are lost. -/
noncomputable def detect_and_notify (th : ℚ) (gmp : String → List ℚ) (ts : String) :
    StateMap → List RawRecord → Except StateMap (StateMap × List Event)
  | st, [] => .ok (st, [])
  | st, r :: rest =>
      match r.key with
      | none => .error st
      | some k =>
          let step := processRecord th gmp ts st (r.withKey k)
          match detect_and_notify th gmp ts step.state rest with
          | .error st' => .error st'
          | .ok (st', evs) => .ok (st', step.events ++ evs)

/-- Final state of a run of `detect_and_notify`, whether it completed or
aborted on a malformed record. -/
def finalState : Except StateMap (StateMap × List Event) → StateMap
  | .error s => s
  | .ok (s, _) => s

/-- Processing of a list of well-keyed records (used to describe the
prefix of a batch processed before a malformed record aborts it). -/
noncomputable def processAll (th : ℚ) (gmp : String → List ℚ) (ts : String) :
    StateMap → List Incoming → StateMap × List Event
  | st, [] => (st, [])
  | st, r :: rest =>
      let step := processRecord th gmp ts st r
      let tail := processAll th gmp ts step.state rest
      (tail.1, step.events ++ tail.2)

/-! ### Notification batcher (`run_cycle`, lines 492-514) -/

/-- The divider placed between two notifications inside one message. -/
def SEP : String := "\n---\n"

/-- The transport size budget: `max_len = 3800`. -/
def MAX_LEN : Nat := 3800

/-- Python `"\n---\n".join(notifications)`. -/
def joinSep : List String → String
  | [] => ""
  | a :: as => as.foldl (fun acc n => acc ++ (SEP ++ n)) a

/-- The overflow loop of `run_cycle`: walk the notifications keeping a
current message `cur`; when appending the next note (with divider and
footer) would exceed the budget, close `cur` with the footer and restart
from `header` plus that note; finally close the last message. -/
def buildPartsAux (header footer : String) (maxLen : Nat) :
    List String → List String → String → List String
  | [], parts, cur => parts ++ [cur ++ footer]
  | note :: rest, parts, cur =>
      let chunk := if cur ≠ header then SEP ++ note else note
      if maxLen < cur.length + chunk.length + footer.length then
        buildPartsAux header footer maxLen rest (parts ++ [cur ++ footer]) (header ++ note)
      else
        buildPartsAux header footer maxLen rest parts (cur ++ chunk)

/-- The batching logic of `run_cycle`: nothing is sent for an empty
notification list; a single message when header + joined notes + footer
fits within `MAX_LEN`; otherwise the overflow loop splits the notes over
several messages. -/
def batchMessages (header footer : String) (notes : List String) : List String :=
  if notes.isEmpty then []
  else
    let message := header ++ joinSep notes ++ footer
    if message.length ≤ MAX_LEN then [message]
    else buildPartsAux header footer MAX_LEN notes [] header

/-! ### Concrete inputs for witnesses and counterexamples -/

/-- Stored record whose `last_notified_gmp` is `0` (reachable: a
large-move alert at median `0` stores `0`). -/
def exRecZero : IpoRec :=
  { emptyRec with status := some "open", last_notified_gmp := some 0 }

/-- Stored record that has never fired a GMP alert. -/
def exRecFresh : IpoRec :=
  { emptyRec with status := some "open" }

/-- Incoming record with key `"k"` and status `"open"`. -/
def exInc : Incoming :=
  { company_name := none, symbol := none, exchange := none,
    price_band_low := none, price_band_high := none,
    issue_open_date := none, issue_close_date := none,
    status := some "open", key := "k" }

/-- Incoming record with key `"a"`. -/
def exIncA : Incoming := { exInc.toIncomingFields with key := "a" }

/-- Incoming record with key `"c"`. -/
def exIncC : Incoming := { exInc.toIncomingFields with key := "c" }

/-- A malformed raw record: no `"key"` entry. -/
def exRawBad : RawRecord := { exInc.toIncomingFields with key := none }

/-- Stored record whose last notified GMP is `60`. -/
def exRec60 : IpoRec :=
  { emptyRec with status := some "open", last_notified_gmp := some 60 }

/-- A note longer than the whole message budget. -/
def bigNote : String := String.mk (List.replicate 3801 'a')

/-! ### Helper lemmas -/

/-- `absQ` agrees with the mathematical absolute value. -/
theorem absQ_eq_abs (q : ℚ) : absQ q = |q| := by
  unfold absQ
  rcases le_or_lt 0 q with h | h
  · rw [if_neg (not_lt.mpr h), abs_of_nonneg h]
  · rw [if_pos h, abs_of_neg h]

/-- A string of length zero is the empty string. -/
theorem str_eq_empty_of_length (s : String) (h : s.length = 0) : s = "" := by
  cases s with
  | mk data =>
    cases data with
    | nil => rfl
    | cons c cs => simp [String.length] at h

/-- Length of a string built from an explicit character list. -/
theorem str_length_mk (l : List Char) : (String.mk l).length = l.length := rfl

/-- Looking up the key just written returns the written record. -/
theorem lookup_setKey_self (k : String) (v : IpoRec) (st : StateMap) :
    (setKey k v st).lookup k = some v := by
  induction st with
  | nil => simp [setKey, List.lookup]
  | cons p t ih =>
      obtain ⟨k', v'⟩ := p
      by_cases h : k' = k
      · subst h
        simp [setKey, List.lookup]
      · simp only [setKey, if_neg h, List.lookup]
        rw [show (k == k') = false from beq_eq_false_iff_ne.mpr (Ne.symm h)]
        exact ih

/-- Writing one key leaves lookups of other keys unchanged. -/
theorem lookup_setKey_ne (k j : String) (v : IpoRec) (st : StateMap) (h : j ≠ k) :
    (setKey k v st).lookup j = st.lookup j := by
  induction st with
  | nil =>
      simp only [setKey, List.lookup]
      rw [show (j == k) = false from beq_eq_false_iff_ne.mpr h]
  | cons p t ih =>
      obtain ⟨k', v'⟩ := p
      by_cases hk : k' = k
      · subst hk
        simp only [setKey, if_pos rfl, List.lookup]
        rw [show (j == k') = false from beq_eq_false_iff_ne.mpr h]
      · simp only [setKey, if_neg hk, List.lookup]
        cases hbeq : j == k'
        · exact ih
        · rfl

/-- Writing a key never removes another key from the state. -/
theorem lookup_setKey_isSome (k j : String) (v : IpoRec) (st : StateMap)
    (h : (st.lookup j).isSome) : ((setKey k v st).lookup j).isSome := by
  by_cases hj : j = k
  · subst hj
    rw [lookup_setKey_self]
    rfl
  · rw [lookup_setKey_ne k j v st hj]
    exact h

/-- The aggregator on a non-empty reading list. -/
theorem gather_gmp_for_ne (l : List ℚ) (h : l ≠ []) :
    gather_gmp_for l = some ⟨medianQ l, l, aggConfidence l⟩ := by
  unfold gather_gmp_for
  rw [if_neg h]

/-- Reconciliation of an unseen key. -/
theorem reconcile_new (ts : String) (st : StateMap) (r : Incoming)
    (h : st.lookup r.key = none) :
    reconcile ts st r =
      (setKey r.key (storeNew r ts) st,
       [Event.newIPO r.key r.company_name r.symbol
          r.issue_open_date r.issue_close_date r.price_band_low r.price_band_high]) := by
  unfold reconcile
  rw [h]

/-- Reconciliation of a stored key whose status differs. -/
theorem reconcile_changed (ts : String) (st : StateMap) (r : Incoming) (p : IpoRec)
    (hp : st.lookup r.key = some p) (hs : statusStr p.status ≠ statusStr r.status) :
    reconcile ts st r =
      (setKey r.key (mergeInto p r ts) st,
       [Event.statusChanged r.key r.company_name r.symbol p.status r.status]) := by
  unfold reconcile
  rw [hp]
  exact if_pos hs

/-- Reconciliation of a stored key with identical status. -/
theorem reconcile_same (ts : String) (st : StateMap) (r : Incoming) (p : IpoRec)
    (hp : st.lookup r.key = some p) (hs : statusStr p.status = statusStr r.status) :
    reconcile ts st r = (st, []) := by
  unfold reconcile
  rw [hp]
  exact if_neg (fun hcon => hcon hs)

/-- `processRecord` when no reading was gathered for the key. -/
theorem processRecord_gmp_empty (th : ℚ) (gmp : String → List ℚ) (ts : String)
    (st : StateMap) (r : Incoming) (h : gmp r.key = []) :
    processRecord th gmp ts st r =
      ⟨(reconcile ts st r).1, (reconcile ts st r).2,
       if (reconcile ts st r).2.isEmpty then [] else [(reconcile ts st r).1]⟩ := by
  unfold processRecord
  rw [h]
  rfl

/-- `processRecord` when readings exist but neither alert rule fires. -/
theorem processRecord_no_fire (th : ℚ) (gmp : String → List ℚ) (ts : String)
    (st : StateMap) (r : Incoming) (h : gmp r.key ≠ [])
    (hf : shouldNotify th (lastNotifiedAt st r.key) (medianQ (gmp r.key)) = false) :
    processRecord th gmp ts st r =
      ⟨(reconcile ts st r).1, (reconcile ts st r).2,
       if (reconcile ts st r).2.isEmpty then [] else [(reconcile ts st r).1]⟩ := by
  unfold processRecord
  rw [gather_gmp_for_ne _ h]
  simp only [hf, Bool.false_eq_true, if_false]

/-- `processRecord` when one of the alert rules fires: the stored record
gains `last_notified_gmp = median`, the state is flushed, and a GMP alert
event is appended. -/
theorem processRecord_fire (th : ℚ) (gmp : String → List ℚ) (ts : String)
    (st : StateMap) (r : Incoming) (h : gmp r.key ≠ [])
    (hf : shouldNotify th (lastNotifiedAt st r.key) (medianQ (gmp r.key)) = true) :
    processRecord th gmp ts st r =
      ⟨setKey r.key
         { ((reconcile ts st r).1.lookup r.key).getD emptyRec with
             last_notified_gmp := some (medianQ (gmp r.key)) } (reconcile ts st r).1,
       (reconcile ts st r).2 ++
         [Event.gmpAlert r.key
            (((reconcile ts st r).1.lookup r.key).getD emptyRec).company_name
            (medianQ (gmp r.key)) (aggConfidence (gmp r.key))
            (midpointOf
              (((reconcile ts st r).1.lookup r.key).getD emptyRec).price_band_low
              (((reconcile ts st r).1.lookup r.key).getD emptyRec).price_band_high)],
       (if (reconcile ts st r).2.isEmpty then [] else [(reconcile ts st r).1]) ++
         [setKey r.key
            { ((reconcile ts st r).1.lookup r.key).getD emptyRec with
                last_notified_gmp := some (medianQ (gmp r.key)) } (reconcile ts st r).1]⟩ := by
  unfold processRecord
  rw [gather_gmp_for_ne _ h]
  simp only [hf, if_true]

/-- Reconciliation emits no GMP alert. -/
theorem reconcile_countP_gmp (ts : String) (st : StateMap) (r : Incoming) :
    (reconcile ts st r).2.countP Event.isGmpAlert = 0 := by
  cases hp : st.lookup r.key with
  | none =>
      rw [reconcile_new ts st r hp]
      simp [Event.isGmpAlert]
  | some p =>
      by_cases hs : statusStr p.status = statusStr r.status
      · rw [reconcile_same ts st r p hp hs]
        simp
      · rw [reconcile_changed ts st r p hp hs]
        simp [Event.isGmpAlert]

/-- A GMP alert is not a status-change event. -/
theorem not_statusChanged_of_gmpAlert (e : Event) (h : e.isGmpAlert = true) :
    e.isStatusChanged = false := by
  cases e <;> simp_all [Event.isGmpAlert, Event.isStatusChanged]

/-- A GMP alert is not a new-IPO event. -/
theorem not_newIPO_of_gmpAlert (e : Event) (h : e.isGmpAlert = true) :
    e.isNewIPO = false := by
  cases e <;> simp_all [Event.isGmpAlert, Event.isNewIPO]

/-- The events of `processRecord` are the reconciliation events, possibly
followed by a single GMP alert. -/
theorem processRecord_events_shape (th : ℚ) (gmp : String → List ℚ) (ts : String)
    (st : StateMap) (r : Incoming) :
    (processRecord th gmp ts st r).events = (reconcile ts st r).2
    ∨ ∃ e, e.isGmpAlert = true
        ∧ (processRecord th gmp ts st r).events = (reconcile ts st r).2 ++ [e] := by
  rcases eq_or_ne (gmp r.key) [] with hg | hg
  · rw [processRecord_gmp_empty th gmp ts st r hg]
    exact Or.inl rfl
  · cases hf : shouldNotify th (lastNotifiedAt st r.key) (medianQ (gmp r.key)) with
    | false =>
        rw [processRecord_no_fire th gmp ts st r hg hf]
        exact Or.inl rfl
    | true =>
        rw [processRecord_fire th gmp ts st r hg hf]
        refine Or.inr ⟨_, ?_, rfl⟩
        rfl

/-- The state of `processRecord` is the reconciled state, possibly with
the record at the incoming key updated. -/
theorem processRecord_state_shape (th : ℚ) (gmp : String → List ℚ) (ts : String)
    (st : StateMap) (r : Incoming) :
    (processRecord th gmp ts st r).state = (reconcile ts st r).1
    ∨ ∃ v, (processRecord th gmp ts st r).state = setKey r.key v (reconcile ts st r).1 := by
  rcases eq_or_ne (gmp r.key) [] with hg | hg
  · rw [processRecord_gmp_empty th gmp ts st r hg]
    exact Or.inl rfl
  · cases hf : shouldNotify th (lastNotifiedAt st r.key) (medianQ (gmp r.key)) with
    | false =>
        rw [processRecord_no_fire th gmp ts st r hg hf]
        exact Or.inl rfl
    | true =>
        rw [processRecord_fire th gmp ts st r hg hf]
        exact Or.inr ⟨_, rfl⟩

/-- Reconciliation never removes a stored key. -/
theorem reconcile_preserves (ts : String) (st : StateMap) (r : Incoming) (j : String)
    (h : (st.lookup j).isSome) : ((reconcile ts st r).1.lookup j).isSome := by
  cases hp : st.lookup r.key with
  | none =>
      rw [reconcile_new ts st r hp]
      exact lookup_setKey_isSome _ _ _ _ h
  | some p =>
      by_cases hs : statusStr p.status = statusStr r.status
      · rw [reconcile_same ts st r p hp hs]
        exact h
      · rw [reconcile_changed ts st r p hp hs]
        exact lookup_setKey_isSome _ _ _ _ h

/-- Processing one record never removes a stored key. -/
theorem processRecord_preserves (th : ℚ) (gmp : String → List ℚ) (ts : String)
    (st : StateMap) (r : Incoming) (j : String)
    (h : (st.lookup j).isSome) : ((processRecord th gmp ts st r).state.lookup j).isSome := by
  rcases processRecord_state_shape th gmp ts st r with hs | ⟨v, hs⟩
  · rw [hs]
    exact reconcile_preserves ts st r j h
  · rw [hs]
    exact lookup_setKey_isSome _ _ _ _ (reconcile_preserves ts st r j h)

/-- Reconciliation does not change the stored `last_notified_gmp` of the
incoming key. -/
theorem lastNotifiedAt_reconcile (ts : String) (st : StateMap) (r : Incoming) :
    lastNotifiedAt (reconcile ts st r).1 r.key = lastNotifiedAt st r.key := by
  unfold lastNotifiedAt
  cases hp : st.lookup r.key with
  | none =>
      rw [reconcile_new ts st r hp, lookup_setKey_self]
      rfl
  | some p =>
      by_cases hs : statusStr p.status = statusStr r.status
      · rw [reconcile_same ts st r p hp hs]
        dsimp only
        rw [hp]
      · rw [reconcile_changed ts st r p hp hs]
        simp only [lookup_setKey_self]
        rfl

/-- The population variance is non-negative. -/
theorem pvarianceQ_nonneg (l : List ℚ) : 0 ≤ pvarianceQ l := by
  unfold pvarianceQ
  apply div_nonneg
  · apply List.sum_nonneg
    intro x hx
    obtain ⟨y, _, rfl⟩ := List.mem_map.mp hx
    positivity
  · positivity

/-- The spread is non-negative. -/
theorem spreadOf_nonneg (l : List ℚ) : 0 ≤ spreadOf l := by
  unfold spreadOf
  split
  · exact Real.sqrt_nonneg _
  · exact le_refl 0

/-- Reconciliation events filtered for GMP alerts give nothing. -/
theorem reconcile_filter_gmp (ts : String) (st : StateMap) (r : Incoming) :
    (reconcile ts st r).2.filter Event.isGmpAlert = [] := by
  cases hp : st.lookup r.key with
  | none =>
      rw [reconcile_new ts st r hp]
      simp [Event.isGmpAlert]
  | some p =>
      by_cases hs : statusStr p.status = statusStr r.status
      · rw [reconcile_same ts st r p hp hs]
        simp
      · rw [reconcile_changed ts st r p hp hs]
        simp [Event.isGmpAlert]

/-- A status-change event is recognised by its discriminator. -/
theorem isStatusChanged_mk (k : String) (c s o n : Option String) :
    (Event.statusChanged k c s o n).isStatusChanged = true := rfl

/-- A new-IPO event is recognised by its discriminator. -/
theorem isNewIPO_mk (k : String) (c s o cl : Option String) (lo hi : Option ℚ) :
    (Event.newIPO k c s o cl lo hi).isNewIPO = true := rfl

/-- A GMP alert is recognised by its discriminator. -/
theorem isGmpAlert_mk (k : String) (c : Option String) (m : ℚ) (cf : ℝ)
    (mid : Option ℚ) : (Event.gmpAlert k c m cf mid).isGmpAlert = true := rfl

/-- After processing, the record stored at the incoming key is the
reconciled record, up to its `last_notified_gmp` field. -/
theorem processRecord_record_after (th : ℚ) (gmp : String → List ℚ) (ts : String)
    (st : StateMap) (r : Incoming) (p1 : IpoRec)
    (h1 : (reconcile ts st r).1.lookup r.key = some p1) :
    ∃ g, (processRecord th gmp ts st r).state.lookup r.key
         = some { p1 with last_notified_gmp := g } := by
  rcases eq_or_ne (gmp r.key) [] with hg | hg
  · rw [processRecord_gmp_empty th gmp ts st r hg]
    exact ⟨p1.last_notified_gmp, by rw [h1]⟩
  · cases hf : shouldNotify th (lastNotifiedAt st r.key) (medianQ (gmp r.key)) with
    | false =>
        rw [processRecord_no_fire th gmp ts st r hg hf]
        exact ⟨p1.last_notified_gmp, by rw [h1]⟩
    | true =>
        rw [processRecord_fire th gmp ts st r hg hf]
        refine ⟨some (medianQ (gmp r.key)), ?_⟩
        dsimp only
        rw [h1]
        rw [lookup_setKey_self]
        rfl

/-! ### Claim theorems -/

/-- C1: crossing-up hysteresis. For any positive threshold the crossing
rule fires exactly when the median reaches the threshold while the
stored `last_notified_gmp` is absent or below the threshold; whenever the
crossing rule fires for a key with a gathered aggregate, the stored
`last_notified_gmp` becomes the median. Concretely, with threshold 50 a
cycle at median 60 (no previous notification) fires and stores 60, and
the following cycle at median 55 fires nothing. -/
theorem crossing_hysteresis (th : ℚ) (hth : 0 < th) :
    (∀ (pm : Option ℚ) (m : ℚ),
        crossingFires th pm m = true ↔ (th ≤ m ∧ ∀ q, pm = some q → q < th))
    ∧ (∀ (gmp : String → List ℚ) (ts : String) (st : StateMap) (r : Incoming),
        gmp r.key ≠ [] →
        crossingFires th (lastNotifiedAt st r.key) (medianQ (gmp r.key)) = true →
        lastNotifiedAt (processRecord th gmp ts st r).state r.key
          = some (medianQ (gmp r.key)))
    ∧ ((processRecord 50 (fun _ => [60]) "t1" [("k", exRecFresh)] exInc).events.countP
          Event.isGmpAlert = 1
       ∧ lastNotifiedAt
           (processRecord 50 (fun _ => [60]) "t1" [("k", exRecFresh)] exInc).state "k"
           = some 60
       ∧ (processRecord 50 (fun _ => [55]) "t2"
            (processRecord 50 (fun _ => [60]) "t1" [("k", exRecFresh)] exInc).state
            exInc).events.countP Event.isGmpAlert = 0) := by
  refine ⟨?_, ?_, rfl, rfl, ?_⟩
  · intro pm m
    cases pm with
    | none => simp [crossingFires, pmTruthy]
    | some q =>
        by_cases hq : q = 0
        · subst hq
          simp [crossingFires, pmTruthy, hth]
        · simp [crossingFires, pmTruthy, hq]
  · intro gmp ts st r hne hcf
    have hf : shouldNotify th (lastNotifiedAt st r.key) (medianQ (gmp r.key)) = true := by
      unfold shouldNotify
      rw [hcf, Bool.true_or]
    rw [processRecord_fire th gmp ts st r hne hf]
    unfold lastNotifiedAt
    dsimp only
    rw [lookup_setKey_self]
    rfl
  · have hst : (processRecord 50 (fun _ => [60]) "t1" [("k", exRecFresh)] exInc).state
        = [("k", exRec60)] := rfl
    rw [hst]
    have hlm : largeMoveFires (some 60) 55 = false := by
      unfold largeMoveFires pmTruthy
      norm_num [absQ, epsGmp]
    have hf2 : shouldNotify 50 (lastNotifiedAt [("k", exRec60)] exInc.key)
        (medianQ ((fun _ : String => [(55 : ℚ)]) exInc.key)) = false := by
      rw [show lastNotifiedAt [("k", exRec60)] exInc.key = some 60 from rfl]
      rw [show medianQ ((fun _ : String => [(55 : ℚ)]) exInc.key) = 55 from rfl]
      unfold shouldNotify
      rw [hlm, show crossingFires 50 (some 60) 55 = false from by decide]
      rfl
    rw [processRecord_no_fire 50 (fun _ => [55]) "t2" [("k", exRec60)] exInc
      (by decide) hf2]
    exact reconcile_countP_gmp _ _ _

/-- C1 witness: the crossing-rule equivalence instantiated at the default
threshold 50, an absent previous notification and median 60. -/
theorem crossing_hysteresis_witness :
    (0 : ℚ) < 50
    ∧ (crossingFires 50 none 60 = true
       ↔ ((50 : ℚ) ≤ 60 ∧ ∀ q : ℚ, (none : Option ℚ) = some q → q < 50)) :=
  ⟨by norm_num, (crossing_hysteresis 50 (by norm_num)).1 none 60⟩

/-- C2 counterexample: a stored `last_notified_gmp` of `0` is reachable,
the claimed large-move condition `|0 - 10| / (|0| + 1e-9) > 0.5` holds,
the median 10 sits below the threshold 50, and yet no GMP alert fires,
because the source guards the rule with the Python-truthy test
`if pm and ...` and `0` is falsy. -/
theorem large_move_alert_cex :
    lastNotifiedAt [("k", exRecZero)] "k" = some 0
    ∧ 1 / 2 < |(0 : ℚ) - medianQ [10]| / (|(0 : ℚ)| + epsGmp)
    ∧ (processRecord 50 (fun _ => [10]) "t" [("k", exRecZero)] exInc).events.countP
        Event.isGmpAlert = 0 := by
  refine ⟨rfl, ?_, rfl⟩
  rw [show medianQ [10] = 10 from rfl]
  norm_num [epsGmp]

/-- C2 (amended): for every IPO key whose stored `last_notified_gmp` is
present and non-zero and whose aggregate median exists, a GMP alert fires
whenever the relative move `|prev - median| / (|prev| + 1e-9)` exceeds
one half, regardless of where the values sit relative to the threshold. -/
theorem large_move_alert (th : ℚ) (gmp : String → List ℚ) (ts : String)
    (st : StateMap) (r : Incoming) (q : ℚ)
    (hq : lastNotifiedAt st r.key = some q) (hq0 : q ≠ 0)
    (hne : gmp r.key ≠ [])
    (hmove : 1 / 2 < |q - medianQ (gmp r.key)| / (|q| + epsGmp)) :
    (processRecord th gmp ts st r).events.countP Event.isGmpAlert = 1 := by
  have hlm : largeMoveFires (some q) (medianQ (gmp r.key)) = true := by
    unfold largeMoveFires pmTruthy
    simp only [Option.getD_some]
    rw [Bool.and_eq_true, decide_eq_true_eq, decide_eq_true_eq]
    refine ⟨hq0, ?_⟩
    rw [absQ_eq_abs, absQ_eq_abs]
    exact hmove
  have hf : shouldNotify th (lastNotifiedAt st r.key) (medianQ (gmp r.key)) = true := by
    rw [hq]
    unfold shouldNotify
    rw [hlm, Bool.or_true]
  rw [processRecord_fire th gmp ts st r hne hf]
  dsimp only
  rw [List.countP_append, reconcile_countP_gmp]
  simp [List.countP_cons, isGmpAlert_mk]

/-- C2 witness: previous notification 60, median 20 below the threshold;
the relative move `40 / (60 + 1e-9)` exceeds one half, so the alert
fires. -/
theorem large_move_alert_witness :
    lastNotifiedAt [("k", exRec60)] exInc.key = some 60
    ∧ (60 : ℚ) ≠ 0
    ∧ 1 / 2 < |(60 : ℚ) - medianQ ((fun _ : String => [(20 : ℚ)]) exInc.key)|
        / (|(60 : ℚ)| + epsGmp)
    ∧ (processRecord 50 (fun _ => [20]) "t" [("k", exRec60)] exInc).events.countP
        Event.isGmpAlert = 1 := by
  have hmove : 1 / 2 < |(60 : ℚ) - medianQ ((fun _ : String => [(20 : ℚ)]) exInc.key)|
      / (|(60 : ℚ)| + epsGmp) := by
    rw [show medianQ ((fun _ : String => [(20 : ℚ)]) exInc.key) = 20 from rfl]
    norm_num [epsGmp]
  exact ⟨rfl, by norm_num, hmove,
    large_move_alert 50 (fun _ => [20]) "t" [("k", exRec60)] exInc 60 rfl
      (by norm_num) (by decide) hmove⟩

/-- C3: for an incoming record whose key is stored, a differing status
(string inequality, `str(None) = "None"`) yields exactly one
status-change event carrying the old and new status, and the stored
record becomes the merge of the incoming fields (incoming wins) with
`updated_at` set; an identical status yields no status-change event. -/
theorem status_change_detection (th : ℚ) (gmp : String → List ℚ) (ts : String)
    (st : StateMap) (r : Incoming) (p : IpoRec) (hp : st.lookup r.key = some p) :
    (statusStr p.status ≠ statusStr r.status →
       (processRecord th gmp ts st r).events.countP Event.isStatusChanged = 1
       ∧ Event.statusChanged r.key r.company_name r.symbol p.status r.status
           ∈ (processRecord th gmp ts st r).events
       ∧ (mergeInto p r ts).updated_at = some ts
       ∧ ∃ g, (processRecord th gmp ts st r).state.lookup r.key
              = some { mergeInto p r ts with last_notified_gmp := g })
    ∧ (statusStr p.status = statusStr r.status →
       (processRecord th gmp ts st r).events.countP Event.isStatusChanged = 0) := by
  constructor
  · intro hs
    have hrc := reconcile_changed ts st r p hp hs
    have hev : (reconcile ts st r).2
        = [Event.statusChanged r.key r.company_name r.symbol p.status r.status] := by
      rw [hrc]
    refine ⟨?_, ?_, rfl, ?_⟩
    · rcases processRecord_events_shape th gmp ts st r with he | ⟨e, hge, he⟩
      · rw [he, hev]
        simp [List.countP_cons, isStatusChanged_mk]
      · rw [he, hev, List.countP_append]
        simp [List.countP_cons, isStatusChanged_mk, not_statusChanged_of_gmpAlert e hge]
    · rcases processRecord_events_shape th gmp ts st r with he | ⟨e, hge, he⟩
      · rw [he, hev]
        exact List.mem_singleton_self _
      · rw [he, hev]
        exact List.mem_append_left _ (List.mem_singleton_self _)
    · apply processRecord_record_after
      rw [hrc]
      exact lookup_setKey_self _ _ _
  · intro hs
    have hrc := reconcile_same ts st r p hp hs
    have hev : (reconcile ts st r).2 = [] := by rw [hrc]
    rcases processRecord_events_shape th gmp ts st r with he | ⟨e, hge, he⟩
    · rw [he, hev]
      rfl
    · rw [he, hev]
      simp [List.countP_cons, not_statusChanged_of_gmpAlert e hge]

/-- C3 witness: stored status `"upcoming"`, incoming `"open"`; exactly
one status-change event carrying both, and none on a repeat feed of the
already merged record. -/
theorem status_change_detection_witness :
    ([("k", { emptyRec with status := some "upcoming" })] : StateMap).lookup exInc.key
      = some { emptyRec with status := some "upcoming" }
    ∧ statusStr (some "upcoming") ≠ statusStr (some "open")
    ∧ (processRecord 50 (fun _ => []) "t"
        [("k", { emptyRec with status := some "upcoming" })] exInc).events.countP
          Event.isStatusChanged = 1
    ∧ (processRecord 50 (fun _ => []) "t" [("k", exRecFresh)] exInc).events.countP
        Event.isStatusChanged = 0 := by
  refine ⟨rfl, by decide, ?_, ?_⟩
  · exact ((status_change_detection 50 (fun _ => []) "t"
      [("k", { emptyRec with status := some "upcoming" })] exInc
      { emptyRec with status := some "upcoming" } rfl).1 (by decide)).1
  · exact (status_change_detection 50 (fun _ => []) "t"
      [("k", exRecFresh)] exInc exRecFresh rfl).2 rfl

/-- C4: an incoming record with an unseen key yields exactly one new-IPO
event, and a copy of the incoming record with a `seen_at` timestamp is
stored under the key. -/
theorem new_ipo_detection (th : ℚ) (gmp : String → List ℚ) (ts : String)
    (st : StateMap) (r : Incoming) (h : st.lookup r.key = none) :
    (processRecord th gmp ts st r).events.countP Event.isNewIPO = 1
    ∧ Event.newIPO r.key r.company_name r.symbol r.issue_open_date r.issue_close_date
        r.price_band_low r.price_band_high ∈ (processRecord th gmp ts st r).events
    ∧ (storeNew r ts).seen_at = some ts
    ∧ ∃ g, (processRecord th gmp ts st r).state.lookup r.key
           = some { storeNew r ts with last_notified_gmp := g } := by
  have hrc := reconcile_new ts st r h
  have hev : (reconcile ts st r).2
      = [Event.newIPO r.key r.company_name r.symbol r.issue_open_date
           r.issue_close_date r.price_band_low r.price_band_high] := by
    rw [hrc]
  refine ⟨?_, ?_, rfl, ?_⟩
  · rcases processRecord_events_shape th gmp ts st r with he | ⟨e, hge, he⟩
    · rw [he, hev]
      simp [List.countP_cons, isNewIPO_mk]
    · rw [he, hev, List.countP_append]
      simp [List.countP_cons, isNewIPO_mk, not_newIPO_of_gmpAlert e hge]
  · rcases processRecord_events_shape th gmp ts st r with he | ⟨e, hge, he⟩
    · rw [he, hev]
      exact List.mem_singleton_self _
    · rw [he, hev]
      exact List.mem_append_left _ (List.mem_singleton_self _)
  · apply processRecord_record_after
    rw [hrc]
    exact lookup_setKey_self _ _ _

/-- C4 witness: feeding a record with unseen key `"k"` into the empty
state yields one new-IPO event. -/
theorem new_ipo_detection_witness :
    (([] : StateMap).lookup exInc.key = none)
    ∧ (processRecord 50 (fun _ => []) "t" [] exInc).events.countP Event.isNewIPO = 1 :=
  ⟨rfl, (new_ipo_detection 50 (fun _ => []) "t" [] exInc rfl).1⟩

/-- C5: zero readings for a key make the aggregator return absence, and
then the decision engine emits no GMP alert and leaves the stored
`last_notified_gmp` for the key unchanged. -/
theorem empty_aggregate_no_alert (th : ℚ) (gmp : String → List ℚ) (ts : String)
    (st : StateMap) (r : Incoming) (h : gmp r.key = []) :
    gather_gmp_for [] = none
    ∧ (processRecord th gmp ts st r).events.countP Event.isGmpAlert = 0
    ∧ lastNotifiedAt (processRecord th gmp ts st r).state r.key
        = lastNotifiedAt st r.key := by
  refine ⟨rfl, ?_, ?_⟩
  · rw [processRecord_gmp_empty th gmp ts st r h]
    exact reconcile_countP_gmp ts st r
  · rw [processRecord_gmp_empty th gmp ts st r h]
    exact lastNotifiedAt_reconcile ts st r

/-- C5 witness: a cycle with no readings for the stored key `"k"` emits
no GMP alert and leaves `last_notified_gmp` (here 60) in place. -/
theorem empty_aggregate_no_alert_witness :
    ((fun _ : String => ([] : List ℚ)) exInc.key = [])
    ∧ (processRecord 50 (fun _ => []) "t" [("k", exRec60)] exInc).events.countP
        Event.isGmpAlert = 0
    ∧ lastNotifiedAt (processRecord 50 (fun _ => []) "t" [("k", exRec60)] exInc).state
        exInc.key = lastNotifiedAt [("k", exRec60)] exInc.key :=
  ⟨rfl, (empty_aggregate_no_alert 50 (fun _ => []) "t" [("k", exRec60)] exInc rfl).2.1,
   (empty_aggregate_no_alert 50 (fun _ => []) "t" [("k", exRec60)] exInc rfl).2.2⟩

/-- C6: for every non-empty list of readings, the confidence is
`max(0, 1 - spread/(|median|+1))` for a non-zero median and `0`
otherwise, where the spread squares to the population variance for more
than one reading and is `0` for exactly one; the confidence always lies
in `[0, 1]`, and a single reading with non-zero median has confidence 1. -/
theorem aggregate_confidence_spec (l : List ℚ) (h : l ≠ []) :
    aggConfidence l =
      (if medianQ l ≠ 0 then max 0 (1 - spreadOf l / (|(medianQ l : ℝ)| + 1)) else 0)
    ∧ (1 < l.length → spreadOf l ^ 2 = (pvarianceQ l : ℝ) ∧ 0 ≤ spreadOf l)
    ∧ (l.length = 1 → spreadOf l = 0)
    ∧ 0 ≤ aggConfidence l
    ∧ aggConfidence l ≤ 1
    ∧ (l.length = 1 → medianQ l ≠ 0 → aggConfidence l = 1) := by
  refine ⟨rfl, ?_, ?_, ?_, ?_, ?_⟩
  · intro h1
    unfold spreadOf
    rw [if_pos h1]
    exact ⟨Real.sq_sqrt (by exact_mod_cast pvarianceQ_nonneg l), Real.sqrt_nonneg _⟩
  · intro h1
    unfold spreadOf
    rw [if_neg (by omega)]
  · unfold aggConfidence
    split
    · exact le_max_left 0 _
    · exact le_refl 0
  · unfold aggConfidence
    split
    · apply max_le (by norm_num)
      have hs : (0 : ℝ) ≤ spreadOf l / (|(medianQ l : ℝ)| + 1) :=
        div_nonneg (spreadOf_nonneg l) (by positivity)
      linarith
    · norm_num
  · intro h1 hm
    unfold aggConfidence
    rw [if_pos hm]
    have hz : spreadOf l = 0 := by
      unfold spreadOf
      rw [if_neg (by omega)]
    rw [hz]
    norm_num

/-- C6 witness: the single reading `[7]` has confidence 1, within
`[0, 1]`. -/
theorem aggregate_confidence_spec_witness :
    (([7] : List ℚ) ≠ [])
    ∧ 0 ≤ aggConfidence [7] ∧ aggConfidence [7] ≤ 1 ∧ aggConfidence [7] = 1 :=
  ⟨by decide, (aggregate_confidence_spec [7] (by decide)).2.2.2.1,
   (aggregate_confidence_spec [7] (by decide)).2.2.2.2.1,
   (aggregate_confidence_spec [7] (by decide)).2.2.2.2.2 rfl (by decide)⟩

/-- C8 (amended): whenever a GMP alert fires, the stored record at the
key gains `last_notified_gmp = median` and the final flushed state is the
resulting state; the single emitted alert carries the median, the
confidence, and the price-band midpoint of the stored record, where the
midpoint is `(low+high)/2` (absent bounds read as 0) when at least one
bound is non-zero and `0` (not unavailable) when both are absent or
zero. -/
theorem gmp_alert_payload (th : ℚ) (gmp : String → List ℚ) (ts : String)
    (st : StateMap) (r : Incoming) (hne : gmp r.key ≠ [])
    (hf : shouldNotify th (lastNotifiedAt st r.key) (medianQ (gmp r.key)) = true) :
    ∃ rec2, (processRecord th gmp ts st r).state.lookup r.key = some rec2
      ∧ rec2.last_notified_gmp = some (medianQ (gmp r.key))
      ∧ (processRecord th gmp ts st r).events.filter Event.isGmpAlert
          = [Event.gmpAlert r.key rec2.company_name (medianQ (gmp r.key))
               (aggConfidence (gmp r.key))
               (midpointOf rec2.price_band_low rec2.price_band_high)]
      ∧ (processRecord th gmp ts st r).flushes.getLast?
          = some (processRecord th gmp ts st r).state
      ∧ ∀ lo hi : Option ℚ, midpointOf lo hi
          = some (if lo.getD 0 ≠ 0 ∨ hi.getD 0 ≠ 0
                  then (lo.getD 0 + hi.getD 0) / 2 else 0) := by
  rw [processRecord_fire th gmp ts st r hne hf]
  refine ⟨{ ((reconcile ts st r).1.lookup r.key).getD emptyRec with
      last_notified_gmp := some (medianQ (gmp r.key)) }, ?_, rfl, ?_, ?_,
    fun lo hi => rfl⟩
  · dsimp only
    rw [lookup_setKey_self]
  · dsimp only
    rw [List.filter_append, reconcile_filter_gmp]
    simp only [List.nil_append, List.filter_cons, isGmpAlert_mk, if_true,
      List.filter_nil]
  · dsimp only
    exact List.getLast?_concat _

/-- C8 witness: with no previous notification and a single reading of 60
against threshold 50 the alert fires, and the stored record ends with
`last_notified_gmp = 60`. -/
theorem gmp_alert_payload_witness :
    ((fun _ : String => [(60 : ℚ)]) exInc.key ≠ [])
    ∧ shouldNotify 50 (lastNotifiedAt [("k", exRecFresh)] exInc.key)
        (medianQ ((fun _ : String => [(60 : ℚ)]) exInc.key)) = true
    ∧ ∃ rec2, (processRecord 50 (fun _ => [60]) "t" [("k", exRecFresh)]
          exInc).state.lookup exInc.key = some rec2
        ∧ rec2.last_notified_gmp
            = some (medianQ ((fun _ : String => [(60 : ℚ)]) exInc.key)) := by
  refine ⟨by decide, by decide, ?_⟩
  obtain ⟨rec2, h1, h2, _⟩ := gmp_alert_payload 50 (fun _ => [60]) "t"
    [("k", exRecFresh)] exInc (by decide) (by decide)
  exact ⟨rec2, h1, h2⟩

/-- C8 counterexample: a record with both price bands absent fires a GMP
alert whose event reports the midpoint as the number 0, not as
unavailable. -/
theorem gmp_alert_payload_cex :
    exRecFresh.price_band_low = none ∧ exRecFresh.price_band_high = none
    ∧ (processRecord 50 (fun _ => [60]) "t" [("k", exRecFresh)]
        exInc).events.filterMap Event.midpointData = [some 0] :=
  ⟨rfl, rfl, rfl⟩

/-- C9: a run of `detect_and_notify` never removes a stored key, whether
it completes or aborts on a malformed record. -/
theorem never_delete (th : ℚ) (gmp : String → List ℚ) (ts : String)
    (st : StateMap) (rs : List RawRecord) (k : String)
    (h : (st.lookup k).isSome) :
    ((finalState (detect_and_notify th gmp ts st rs)).lookup k).isSome := by
  induction rs generalizing st h with
  | nil => exact h
  | cons r rest ih =>
      cases hk : r.key with
      | none =>
          unfold detect_and_notify
          rw [hk]
          exact h
      | some key =>
          unfold detect_and_notify
          rw [hk]
          dsimp only
          have hstep : (((processRecord th gmp ts st (r.withKey key)).state).lookup k).isSome :=
            processRecord_preserves th gmp ts st (r.withKey key) k h
          have htail := ih (processRecord th gmp ts st (r.withKey key)).state hstep
          cases hres : detect_and_notify th gmp ts
              (processRecord th gmp ts st (r.withKey key)).state rest with
          | error st' =>
              rw [hres] at htail
              exact htail
          | ok pr =>
              obtain ⟨st', evs⟩ := pr
              rw [hres] at htail
              exact htail

/-- C9 witness: the key `"a"` stored beforehand is still present after a
run over an empty batch and after a run over one new record. -/
theorem never_delete_witness :
    (([("a", exRecFresh)] : StateMap).lookup "a").isSome
    ∧ ((finalState (detect_and_notify 50 (fun _ => []) "t" [("a", exRecFresh)]
        [exInc.toRaw])).lookup "a").isSome :=
  ⟨rfl, never_delete 50 (fun _ => []) "t" [("a", exRecFresh)] [exInc.toRaw] "a" rfl⟩

/-- C10 counterexample: in the batch `[a, malformed, c]` the record `c`
after the malformed one is never processed: the run aborts with only `a`
stored, and `c` is absent from the resulting state. -/
theorem shape_error_aborts_cex :
    exRawBad.key = none
    ∧ detect_and_notify 50 (fun _ => []) "t" [] [exIncA.toRaw, exRawBad, exIncC.toRaw]
        = Except.error [("a", storeNew exIncA "t")]
    ∧ (([("a", storeNew exIncA "t")] : StateMap).lookup "c" = none) :=
  ⟨rfl, rfl, rfl⟩

/-- C10 (amended): a record lacking the `"key"` field aborts the batch at
that point: the records before it are processed and their state updates
kept, the error propagates (caught at cycle level), the cycle's
notifications are discarded, and the remaining records are not
processed. -/
theorem shape_error_aborts_batch (th : ℚ) (gmp : String → List ℚ) (ts : String)
    (st : StateMap) (pre : List Incoming) (bad : RawRecord) (post : List RawRecord)
    (hb : bad.key = none) :
    detect_and_notify th gmp ts st (pre.map Incoming.toRaw ++ bad :: post)
      = Except.error (processAll th gmp ts st pre).1 := by
  induction pre generalizing st with
  | nil =>
      simp only [List.map_nil, List.nil_append]
      unfold detect_and_notify
      rw [hb]
      rfl
  | cons r rest ih =>
      simp only [List.map_cons, List.cons_append]
      unfold detect_and_notify
      rw [show (Incoming.toRaw r).key = some r.key from rfl]
      dsimp only
      rw [show (Incoming.toRaw r).withKey r.key = r from rfl]
      rw [ih (processRecord th gmp ts st r).state]
      rfl

/-- C10 witness: a batch holding only a malformed record aborts at once
with the state untouched. -/
theorem shape_error_aborts_batch_witness :
    exRawBad.key = none
    ∧ detect_and_notify 50 (fun _ => []) "t" [("a", exRecFresh)] [exRawBad]
        = Except.error (processAll 50 (fun _ => []) "t" [("a", exRecFresh)] []).1 :=
  ⟨rfl, shape_error_aborts_batch 50 (fun _ => []) "t" [("a", exRecFresh)] [] exRawBad
    [] rfl⟩

/-! ### Batcher lemmas and C7 -/

/-- A non-empty list is not `isEmpty`. -/
theorem isEmpty_false_of_ne (l : List String) (h : l ≠ []) : l.isEmpty = false := by
  cases l with
  | nil => exact absurd rfl h
  | cons a as => rfl

/-- Appending a string returns the original exactly when the appended
string is empty. -/
theorem append_eq_self_iff (a s : String) : a ++ s = a ↔ s = "" := by
  constructor
  · intro h
    have hl := congrArg String.length h
    rw [String.length_append] at hl
    exact str_eq_empty_of_length s (by omega)
  · intro h
    rw [h]
    exact String.append_empty a

/-- `str.join` over a list extended by one more note. -/
theorem joinSep_concat (l : List String) (hl : l ≠ []) (n : String) :
    joinSep (l ++ [n]) = joinSep l ++ SEP ++ n := by
  cases l with
  | nil => exact absurd rfl hl
  | cons a as =>
      show ((as ++ [n]).foldl (fun acc m => acc ++ (SEP ++ m)) a)
         = (as.foldl (fun acc m => acc ++ (SEP ++ m)) a) ++ SEP ++ n
      rw [List.foldl_append]
      show (as.foldl _ a) ++ (SEP ++ n) = _
      rw [String.append_assoc]

/-- The first note bounds the joined text from below. -/
theorem le_length_joinSep (a : String) (as : List String) :
    a.length ≤ (joinSep (a :: as)).length := by
  show a.length ≤ (as.foldl (fun acc m => acc ++ (SEP ++ m)) a).length
  induction as generalizing a with
  | nil => exact le_refl _
  | cons n ns ih =>
      calc a.length ≤ (a ++ (SEP ++ n)).length := by
            rw [String.length_append]
            omega
        _ ≤ _ := ih (a ++ (SEP ++ n))

/-- Joining a non-empty list of non-empty notes is non-empty. -/
theorem joinSep_ne_empty (l : List String) (hl : l ≠ []) (h : ∀ n ∈ l, n ≠ "") :
    joinSep l ≠ "" := by
  cases l with
  | nil => exact absurd rfl hl
  | cons a as =>
      intro hcon
      have ha : a ≠ "" := h a (List.mem_cons_self a as)
      have hlen : a.length ≤ (joinSep (a :: as)).length := le_length_joinSep a as
      rw [hcon] at hlen
      exact ha (str_eq_empty_of_length a (by
        have hz : ("" : String).length = 0 := rfl
        omega))

/-- The overflow loop always emits at least one message. -/
theorem buildPartsAux_ne_nil (header footer : String) (M : Nat) :
    ∀ (notes parts : List String) (cur : String),
      buildPartsAux header footer M notes parts cur ≠ [] := by
  intro notes
  induction notes with
  | nil =>
      intro parts cur
      unfold buildPartsAux
      simp
  | cons n rest ih =>
      intro parts cur
      unfold buildPartsAux
      dsimp only
      split
      · split
        · exact ih _ _
        · exact ih _ _
      · split
        · exact ih _ _
        · exact ih _ _

/-- Budget invariant of the overflow loop: when every note fits in the
budget together with the header and footer, and the current message
still has room for the footer, every finished message respects the
budget. -/
theorem buildPartsAux_le (header footer : String) (M : Nat) :
    ∀ (notes parts : List String) (cur : String),
      (∀ p ∈ parts, p.length ≤ M) →
      cur.length + footer.length ≤ M →
      (∀ n ∈ notes, header.length + n.length + footer.length ≤ M) →
      ∀ msg ∈ buildPartsAux header footer M notes parts cur, msg.length ≤ M := by
  intro notes
  induction notes with
  | nil =>
      intro parts cur hp hc _ msg hm
      unfold buildPartsAux at hm
      rcases List.mem_append.mp hm with h | h
      · exact hp msg h
      · rw [List.mem_singleton.mp h, String.length_append]
        omega
  | cons n rest ih =>
      intro parts cur hp hc hn msg hm
      unfold buildPartsAux at hm
      dsimp only at hm
      by_cases hov : M < cur.length + (if cur ≠ header then SEP ++ n else n).length
          + footer.length
      · rw [if_pos hov] at hm
        refine ih _ _ ?_ ?_ ?_ msg hm
        · intro p hpm
          rcases List.mem_append.mp hpm with h | h
          · exact hp p h
          · rw [List.mem_singleton.mp h, String.length_append]
            omega
        · rw [String.length_append]
          have := hn n (List.mem_cons_self n rest)
          omega
        · intro m hm2
          exact hn m (List.mem_cons_of_mem n hm2)
      · rw [if_neg hov] at hm
        refine ih _ _ hp ?_ ?_ msg hm
        · rw [String.length_append]
          omega
        · intro m hm2
          exact hn m (List.mem_cons_of_mem n hm2)

/-- Partition invariant of the overflow loop: starting from a current
message holding the block `b`, the loop emits exactly the renderings of
consecutive blocks whose concatenation is `b` followed by the remaining
notes — no note is split across two messages. -/
theorem buildPartsAux_partition (header footer : String) (M : Nat) :
    ∀ (notes parts b : List String) (cur : String),
      cur = header ++ joinSep b →
      (∀ n ∈ notes, n ≠ "") →
      (∀ n ∈ b, n ≠ "") →
      ∃ blocks : List (List String),
        buildPartsAux header footer M notes parts cur
          = parts ++ blocks.map (fun bl => header ++ joinSep bl ++ footer)
        ∧ blocks.flatten = b ++ notes := by
  intro notes
  induction notes with
  | nil =>
      intro parts b cur hcur _ _
      subst hcur
      refine ⟨[b], ?_, by simp⟩
      unfold buildPartsAux
      rfl
  | cons n rest ih =>
      intro parts b cur hcur hnotes hb
      have hn0 : n ≠ "" := hnotes n (List.mem_cons_self n rest)
      have hrest : ∀ m ∈ rest, m ≠ "" := fun m hm => hnotes m (List.mem_cons_of_mem n hm)
      subst hcur
      unfold buildPartsAux
      dsimp only
      by_cases hbe : b = []
      · subst hbe
        have hcur0 : header ++ joinSep ([] : List String) = header := by
          rw [show joinSep ([] : List String) = "" from rfl]
          exact String.append_empty header
        rw [hcur0]
        rw [if_neg (fun hcon : header ≠ header => hcon rfl)]
        by_cases hov : M < header.length + n.length + footer.length
        · rw [if_pos hov]
          obtain ⟨blocks', h1, h2⟩ := ih (parts ++ [header ++ footer]) [n]
            (header ++ n) rfl hrest (by
              intro m hm
              rw [List.mem_singleton.mp hm]
              exact hn0)
          refine ⟨[] :: blocks', ?_, by simpa using h2⟩
          rw [h1, List.map_cons]
          have hrend : header ++ joinSep ([] : List String) ++ footer
              = header ++ footer := by rw [hcur0]
          rw [hrend]
          simp
        · rw [if_neg hov]
          obtain ⟨blocks', h1, h2⟩ := ih parts [n] (header ++ n) rfl hrest (by
            intro m hm
            rw [List.mem_singleton.mp hm]
            exact hn0)
          exact ⟨blocks', h1, by simpa using h2⟩
      · have ht : header ++ joinSep b ≠ header := fun hcon =>
          joinSep_ne_empty b hbe hb ((append_eq_self_iff _ _).mp hcon)
        rw [if_pos ht]
        by_cases hov : M < (header ++ joinSep b).length + (SEP ++ n).length
            + footer.length
        · rw [if_pos hov]
          obtain ⟨blocks', h1, h2⟩ := ih (parts ++ [header ++ joinSep b ++ footer]) [n]
            (header ++ n) rfl hrest (by
              intro m hm
              rw [List.mem_singleton.mp hm]
              exact hn0)
          refine ⟨b :: blocks', ?_, ?_⟩
          · rw [h1, List.map_cons]
            simp
          · rw [List.flatten_cons, h2]
            simp
        · rw [if_neg hov]
          have hbn : ∀ m ∈ b ++ [n], m ≠ "" := by
            intro m hm
            rcases List.mem_append.mp hm with h | h
            · exact hb m h
            · rw [List.mem_singleton.mp h]
              exact hn0
          have hcur2 : header ++ joinSep b ++ (SEP ++ n)
              = header ++ joinSep (b ++ [n]) := by
            rw [joinSep_concat b hbe n]
            rw [String.append_assoc, String.append_assoc]
          obtain ⟨blocks', h1, h2⟩ := ih parts (b ++ [n])
            (header ++ joinSep b ++ (SEP ++ n)) hcur2 hrest hbn
          refine ⟨blocks', h1, ?_⟩
          rw [h2]
          simp

/-- C7 (amended): the batcher emits nothing for zero events and at least
one message otherwise; exactly one message when header + joined events +
footer fits the budget; the messages partition the event texts into
consecutive blocks, so no event's text is split across two messages; and
every message respects the budget provided each single event fits within
the budget together with the header and footer (an oversized single
event yields an oversized message). -/
theorem batching_bounds (header footer : String) (notes : List String) :
    (notes ≠ [] → batchMessages header footer notes ≠ [])
    ∧ (notes ≠ [] →
        (∀ n ∈ notes, header.length + n.length + footer.length ≤ MAX_LEN) →
        ∀ msg ∈ batchMessages header footer notes, msg.length ≤ MAX_LEN)
    ∧ ((∀ n ∈ notes, n ≠ "") →
        ∃ blocks : List (List String),
          blocks.flatten = notes
          ∧ batchMessages header footer notes
            = blocks.map (fun bl => header ++ joinSep bl ++ footer))
    ∧ ((header ++ joinSep notes ++ footer).length ≤ MAX_LEN → notes ≠ [] →
        batchMessages header footer notes = [header ++ joinSep notes ++ footer])
    ∧ batchMessages header footer [] = [] := by
  refine ⟨?_, ?_, ?_, ?_, rfl⟩
  · intro hne
    unfold batchMessages
    rw [isEmpty_false_of_ne notes hne]
    simp only [Bool.false_eq_true, if_false]
    split
    · simp
    · exact buildPartsAux_ne_nil header footer MAX_LEN notes [] header
  · intro hne hfits
    unfold batchMessages
    rw [isEmpty_false_of_ne notes hne]
    simp only [Bool.false_eq_true, if_false]
    split
    · intro msg hm
      rw [List.mem_singleton.mp hm]
      omega
    · apply buildPartsAux_le header footer MAX_LEN notes [] header (by simp) ?_ hfits
      obtain ⟨n0, hn0⟩ := List.exists_mem_of_ne_nil notes hne
      have := hfits n0 hn0
      omega
  · intro hni
    cases hnil : notes with
    | nil => exact ⟨[], rfl, rfl⟩
    | cons a as =>
        unfold batchMessages
        rw [isEmpty_false_of_ne (a :: as) (by simp)]
        simp only [Bool.false_eq_true, if_false]
        split
        · refine ⟨[a :: as], by simp, rfl⟩
        · have hcur : header = header ++ joinSep ([] : List String) := by
            rw [show joinSep ([] : List String) = "" from rfl]
            exact (String.append_empty header).symm
          obtain ⟨blocks, h1, h2⟩ := buildPartsAux_partition header footer MAX_LEN
            (a :: as) [] [] header hcur (hnil ▸ hni) (by simp)
          refine ⟨blocks, by simpa using h2, ?_⟩
          rw [h1]
          simp
  · intro hle hne
    unfold batchMessages
    rw [isEmpty_false_of_ne notes hne]
    simp only [Bool.false_eq_true, if_false]
    rw [if_pos hle]

/-- C7 witness: a single short event yields one in-budget message and
the empty event list yields no message. -/
theorem batching_bounds_witness :
    (["a"] : List String) ≠ []
    ∧ batchMessages "H" "F" ["a"] ≠ []
    ∧ (∀ msg ∈ batchMessages "H" "F" ["a"], msg.length ≤ MAX_LEN)
    ∧ batchMessages "H" "F" [] = [] :=
  ⟨by decide, (batching_bounds "H" "F" ["a"]).1 (by decide),
   (batching_bounds "H" "F" ["a"]).2.1 (by decide) (by decide),
   (batching_bounds "H" "F" []).2.2.2.2⟩

/-- C7 counterexample: a single event of 3801 characters (longer than
the whole 3800-character budget) is emitted as a message exceeding the
budget — the claim that every emitted message stays within the budget
fails for oversized single events. -/
theorem batching_bounds_cex :
    ∃ msg ∈ batchMessages "" "" [bigNote], MAX_LEN < msg.length := by
  have hbig : bigNote.length = 3801 := by
    have h : bigNote.length = (List.replicate 3801 'a').length := rfl
    rw [h, List.length_replicate]
  have hz : ("" : String).length = 0 := rfl
  have hmsg : ¬(("" ++ joinSep [bigNote] ++ "").length ≤ MAX_LEN) := by
    rw [show joinSep [bigNote] = bigNote from rfl]
    rw [String.length_append, String.length_append, hbig, hz]
    decide
  have hov : MAX_LEN < ("" : String).length
      + (if ("" : String) ≠ "" then SEP ++ bigNote else bigNote).length
      + ("" : String).length := by
    rw [if_neg (fun hcon : ("" : String) ≠ "" => hcon rfl), hbig, hz]
    decide
  have hbatch : batchMessages "" "" [bigNote] = ["" ++ "", "" ++ bigNote ++ ""] := by
    unfold batchMessages
    rw [isEmpty_false_of_ne [bigNote] (by simp)]
    simp only [Bool.false_eq_true, if_false]
    rw [if_neg hmsg]
    unfold buildPartsAux
    dsimp only
    rw [if_pos hov]
    unfold buildPartsAux
    rfl
  refine ⟨"" ++ bigNote ++ "", by rw [hbatch]; simp, ?_⟩
  rw [String.length_append, String.length_append, hbig, hz]
  decide

end IpoAgent
